import Mathlib

/-!
Verification of the backup/restore subsystem of koishi-plugin-dev-tool
(`src/backup.ts`, class `BackupService`), against its natural-language
specification.  The TypeScript operations are shallowly embedded as
executable Lean functions over explicit inputs: the backup directory is a
list of file names (with structured contents where needed), the datastore
is a fetch function plus an effect trace, and JavaScript strings are Lean
strings compared by code point (the `localeCompare` calls in the source
agree with code-point order on the ASCII filenames they are applied to).
-/

set_option maxRecDepth 8000

namespace DevTool

/-! ## Strings and ordering -/

/-- Lexicographic strict order on character lists by code point.  This is
the model of JavaScript string comparison used by the source's
`b.localeCompare(a)` sort callbacks; on the `backup_...` ASCII filenames
these agree with code-point order. -/
def charListLt : List Char → List Char → Bool
  | [], [] => false
  | [], _ :: _ => true
  | _ :: _, [] => false
  | a :: as, b :: bs => if a < b then true else if b < a then false else charListLt as bs

/-- Strict string order by code point (model of JavaScript `<` comparison of
strings / `localeCompare` on the filenames at hand). -/
def strLt (a b : String) : Bool := charListLt a.data b.data

/-- Insertion step of a descending sort: `x` is placed before the first
element not strictly greater than it. -/
def insertDescBy {α : Type} (key : α → String) (x : α) : List α → List α
  | [] => [x]
  | y :: ys => if strLt (key x) (key y) then y :: insertDescBy key x ys else x :: y :: ys

/-- Descending (newest-name-first) sort by a string key, the model of the
source's `.sort((a, b) => b.localeCompare(a))` calls. -/
def sortDescBy {α : Type} (key : α → String) : List α → List α
  | [] => []
  | x :: xs => insertDescBy key x (sortDescBy key xs)

/-! ## Timestamp codec (`getTimestamp`) -/

/-- Decimal digit character. -/
def digitChar (n : Nat) : Char := Char.ofNat (48 + n)

/-- Fuel-based decimal expansion (fuel `n + 1` always suffices); structural
so that it evaluates inside the kernel. -/
def natDigitsGo : Nat → Nat → List Char → List Char
  | 0, _, acc => acc
  | fuel + 1, n, acc =>
    if n < 10 then digitChar n :: acc
    else natDigitsGo fuel (n / 10) (digitChar (n % 10) :: acc)

/-- Decimal digit list of a natural number, the model of JavaScript
`String(n)` for a nonnegative integer. -/
def natDigits (n : Nat) : List Char := natDigitsGo (n + 1) n []

/-- Model of JavaScript `String(n)` for a natural number. -/
def natToString (n : Nat) : String := String.mk (natDigits n)

/-- Model of `String(n).padStart(2, '0')` from the source's `getTimestamp`. -/
def pad2Start (n : Nat) : List Char :=
  List.replicate (2 - (natDigits n).length) '0' ++ natDigits n

/-- Components of the local time captured by `new Date()` in
`getTimestamp`; `month` is already 1-based (the source adds 1 to
`Date.getMonth()`). -/
structure LocalTime where
  year : Nat
  month : Nat
  day : Nat
  hour : Nat
  minute : Nat
  second : Nat

/-- Embedding of `BackupService.getTimestamp`: the writer's timestamp string
`YYYYMMDD_HHMMSS` (year unpadded, every other component padded to width 2,
with an underscore between date and time). -/
def getTimestamp (t : LocalTime) : String :=
  String.mk (natDigits t.year ++ pad2Start t.month ++ pad2Start t.day ++ '_' ::
    (pad2Start t.hour ++ pad2Start t.minute ++ pad2Start t.second))

/-! ## Filename patterns

The catalog and the restore reader classify files with the regexps
`/^backup_(\d+)\.json$/`, `/^backup_(\d+)_(.+)\.json$/` and
`new RegExp("^backup_" + timestamp + "_(.+)\\.json$")`.  Each is embedded
as an `Option`-returning matcher for the capture groups.  `\d+` followed by
a non-digit literal is equivalent to the maximal digit run (backtracking
to a shorter run would put a digit where the non-digit literal must match),
and `(.+)\.json$` is equivalent to "ends with `.json`, and the part before
that final suffix is nonempty and free of line terminators" (the wildcard
dot excludes line terminators in JavaScript). -/

/-- Characters that the JavaScript regexp wildcard `.` does not match. -/
def isLineTerm (c : Char) : Bool :=
  c == '\n' || c == '\r' || c == Char.ofNat 0x2028 || c == Char.ofNat 0x2029

/-- Embedding of `file.match(/^backup_(\d+)\.json$/)`, returning the digits
captured as the timestamp. -/
def matchSingleBackup (file : String) : Option String :=
  let cs := file.data
  if cs.take 7 = "backup_".data then
    let ds := (cs.drop 7).takeWhile Char.isDigit
    let rest := (cs.drop 7).dropWhile Char.isDigit
    if ds ≠ [] ∧ rest = ".json".data then some (String.mk ds) else none
  else none

/-- Embedding of `file.match(/^backup_(\d+)_(.+)\.json$/)`, returning the
two capture groups (timestamp digits, table name). -/
def matchMultiBackup (file : String) : Option (String × String) :=
  let cs := file.data
  if cs.take 7 = "backup_".data then
    let ds := (cs.drop 7).takeWhile Char.isDigit
    match (cs.drop 7).dropWhile Char.isDigit with
    | '_' :: t2 =>
      let core := t2.take (t2.length - 5)
      if ds ≠ [] ∧ 6 ≤ t2.length ∧ t2.drop (t2.length - 5) = ".json".data
          ∧ core.all (fun c => !(isLineTerm c)) = true
      then some (String.mk ds, String.mk core) else none
    | _ => none
  else none

/-- Embedding of the restore reader's
`new RegExp("^backup_" + timestamp + "_(.+)\\.json$")` (the timestamp is a
digit string, so it is matched literally), returning the captured table
name. -/
def matchTimestampFile (timestamp file : String) : Option String :=
  let pre := "backup_".data ++ timestamp.data ++ ['_']
  let cs := file.data
  if cs.take pre.length = pre then
    let t2 := cs.drop pre.length
    let core := t2.take (t2.length - 5)
    if 6 ≤ t2.length ∧ t2.drop (t2.length - 5) = ".json".data
        ∧ core.all (fun c => !(isLineTerm c)) = true
    then some (String.mk core) else none
  else none

/-- Single-file artifact name written by `backupTables`. -/
def singleBackupFileName (timestamp : String) : String :=
  "backup_" ++ timestamp ++ ".json"

/-- Multi-file artifact member name written by `backupTables`. -/
def multiBackupFileName (timestamp table : String) : String :=
  "backup_" ++ timestamp ++ "_" ++ table ++ ".json"

/-! ## Backup catalog (`listBackups`) -/

/-- One catalog entry: a timestamp, and in multi-file mode the grouped table
names. -/
structure BackupEntry where
  timestamp : String
  tables : Option (List String)
deriving DecidableEq

/-- JavaScript-`Map` grouping step: keys keep insertion order, values are
appended to the per-key list. -/
def groupInsert (m : List (String × List String)) (k v : String) :
    List (String × List String) :=
  match m with
  | [] => [(k, [v])]
  | (k1, vs) :: rest =>
    if k1 = k then (k1, vs ++ [v]) :: rest else (k1, vs) :: groupInsert rest k v

/-- Embedding of `BackupService.listBackups`, over the list of names in the
backup directory. -/
def listBackups (files : List String) (singleFile : Bool) : List BackupEntry :=
  if singleFile then
    sortDescBy (fun e => e.timestamp)
      (files.filterMap (fun f => (matchSingleBackup f).map (fun ts => ⟨ts, none⟩)))
  else
    let pairs := files.filterMap matchMultiBackup
    let grouped := pairs.foldl (fun m p => groupInsert m p.1 p.2) []
    sortDescBy (fun e => e.timestamp) (grouped.map (fun kv => ⟨kv.1, some kv.2⟩))

/-! ## Row fields and date (de)serialization

Rows are opaque field maps; the one transformation the source applies is
`JSON.stringify` turning `Date` values into ISO strings on write, and
`parseJSONWithDates` turning strings matching the reviver regexp back into
`Date`s on read.  A field is modelled as a scalar JSON value, a date being
its UTC epoch milliseconds (the model covers instants from 1970-01-01 up to
year 9999, the range on which `toISOString` produces the plain 24-character
form). -/

inductive Field where
  | fnull
  | fbool (b : Bool)
  | fnum (n : Int)
  | fstr (s : String)
  | fdate (ms : Nat)
deriving DecidableEq

/-- A row: ordered field-name/value mapping, as in the JSON files. -/
abbrev Row := List (String × Field)

/-! ### Proleptic Gregorian calendar (ECMAScript `Date` time computations) -/

/-- Gregorian leap-year rule (as in ECMAScript `DaysInYear`). -/
def isLeap (y : Nat) : Bool := (y % 4 == 0 && y % 100 != 0) || y % 400 == 0

def daysInYear (y : Nat) : Nat := if isLeap y then 366 else 365

/-- Days in month `m` (1-based) of year `y`. -/
def daysInMonth (y m : Nat) : Nat :=
  if m == 2 then (if isLeap y then 29 else 28)
  else if m == 4 || m == 6 || m == 9 || m == 11 then 30 else 31

/-- Days from 1970-01-01 to the start of year `1970 + k`. -/
def yearsBeforeGo : Nat → Nat
  | 0 => 0
  | k + 1 => yearsBeforeGo k + daysInYear (1970 + k)

/-- Days from the epoch 1970-01-01 to the start of year `y` (0 for years up
to 1970). -/
def yearsBefore (y : Nat) : Nat := yearsBeforeGo (y - 1970)

/-- Days in year `y` before the start of month `m` (1-based). -/
def monthsBefore (y m : Nat) : Nat :=
  match m with
  | 0 => 0
  | 1 => 0
  | k + 2 => monthsBefore y (k + 1) + daysInMonth y (k + 1)

/-- Splits a day count from the start of year `y` into (year, day-of-year);
fuel-based structural recursion so that it evaluates in the kernel (each
step consumes at least 365 days, so fuel `d + 1` always suffices). -/
def yearSplitGo : Nat → Nat → Nat → Nat × Nat
  | 0, y, d => (y, d)
  | fuel + 1, y, d =>
    if daysInYear y ≤ d then yearSplitGo fuel (y + 1) (d - daysInYear y) else (y, d)

def yearSplit (y d : Nat) : Nat × Nat := yearSplitGo (d + 1) y d

/-- Splits a day-of-year into (month, day-of-month, both handled 1-based /
0-based respectively); at most 11 steps are ever taken. -/
def monthSplitGo : Nat → Nat → Nat → Nat → Nat × Nat
  | 0, _, m, d => (m, d)
  | fuel + 1, y, m, d =>
    if daysInMonth y m ≤ d ∧ m < 12 then monthSplitGo fuel y (m + 1) (d - daysInMonth y m)
    else (m, d)

def monthSplit (y d : Nat) : Nat × Nat := monthSplitGo 11 y 1 d

/-- Epoch day count to Gregorian civil date (year, month 1-12, day 1-31). -/
def civilFromDays (d : Nat) : Nat × Nat × Nat :=
  let p := yearSplit 1970 d
  let q := monthSplit p.1 p.2
  (p.1, q.1, q.2 + 1)

/-- Gregorian civil date to epoch day count. -/
def daysFromCivil (y m dd : Nat) : Nat :=
  yearsBefore y + monthsBefore y m + (dd - 1)

def msPerDay : Nat := 86400000

/-- Whether an instant's year is at most 9999, i.e. whether
`Date.prototype.toISOString` renders it in the plain 24-character
`YYYY-MM-DDTHH:MM:SS.mmmZ` form modelled here. -/
def dateInRange (ms : Nat) : Bool := (civilFromDays (ms / msPerDay)).1 ≤ 9999

/-! ### ISO-8601 formatting (`Date.prototype.toISOString`) -/

/-- Fixed-width zero-padded decimal fields, exactly as specified for the
date/time components of `toISOString` (every component is below the
rendered width's bound). -/
def pad2 (n : Nat) : List Char := [digitChar (n / 10 % 10), digitChar (n % 10)]

def pad3 (n : Nat) : List Char :=
  [digitChar (n / 100 % 10), digitChar (n / 10 % 10), digitChar (n % 10)]

def pad4 (n : Nat) : List Char :=
  [digitChar (n / 1000 % 10), digitChar (n / 100 % 10), digitChar (n / 10 % 10),
   digitChar (n % 10)]

/-- Assembles the 24-character ISO form from its numeric components. -/
def isoBuild (y mo dd hh mi ss ff : Nat) : List Char :=
  pad4 y ++ '-' :: (pad2 mo ++ '-' :: (pad2 dd ++ 'T' ::
    (pad2 hh ++ ':' :: (pad2 mi ++ ':' ::
    (pad2 ss ++ '.' :: (pad3 ff ++ ['Z']))))))

/-- Model of `Date.prototype.toISOString` (UTC, millisecond precision,
literal `Z`), for instants whose year is 1970–9999. -/
def toISOChars (ms : Nat) : List Char :=
  let v := ms % msPerDay
  let c := civilFromDays (ms / msPerDay)
  isoBuild c.1 c.2.1 c.2.2 (v / 3600000) (v % 3600000 / 60000) (v % 60000 / 1000) (v % 1000)

def toISOString (ms : Nat) : String := String.mk (toISOChars ms)

/-! ### The reviver (`parseJSONWithDates`) -/

/-- Embedding of the reviver's test
`/^\d{4}-\d{2}-\d{2}T\d{2}:\d{2}:\d{2}.\d{3}Z$/.test(value)`.  Note the
unescaped dot: position 19 may be any single non-line-terminator
character. -/
def jsDateTest (s : String) : Bool :=
  match s.data with
  | [y1, y2, y3, y4, '-', a1, a2, '-', b1, b2, 'T', h1, h2, ':', n1, n2, ':',
     t1, t2, dot, f1, f2, f3, 'Z'] =>
    y1.isDigit && y2.isDigit && y3.isDigit && y4.isDigit &&
    a1.isDigit && a2.isDigit && b1.isDigit && b2.isDigit &&
    h1.isDigit && h2.isDigit && n1.isDigit && n2.isDigit &&
    t1.isDigit && t2.isDigit && f1.isDigit && f2.isDigit && f3.isDigit &&
    !(isLineTerm dot)
  | _ => false

def digitVal (c : Char) : Nat := c.toNat - 48

/-- Model of `new Date(value)` (epoch milliseconds) for a string accepted by
`jsDateTest`: the numeric components are read off the fixed positions and
combined through the calendar.  It is only ever applied to accepted strings
(the fallback value 0 is unreachable from `parseField`). -/
def newDateMs : List Char → Nat
  | [y1, y2, y3, y4, '-', a1, a2, '-', b1, b2, 'T', h1, h2, ':', n1, n2, ':',
     t1, t2, _, f1, f2, f3, 'Z'] =>
    daysFromCivil (1000 * digitVal y1 + 100 * digitVal y2 + 10 * digitVal y3 + digitVal y4)
        (10 * digitVal a1 + digitVal a2) (10 * digitVal b1 + digitVal b2) * msPerDay
      + (10 * digitVal h1 + digitVal h2) * 3600000
      + (10 * digitVal n1 + digitVal n2) * 60000
      + (10 * digitVal t1 + digitVal t2) * 1000
      + (100 * digitVal f1 + 10 * digitVal f2 + digitVal f3)
  | _ => 0

/-- Per-value action of `JSON.stringify` on a row field: dates are rendered
as ISO strings (via `Date.prototype.toJSON`), everything else is passed
through. -/
def stringifyField : Field → Field
  | .fdate ms => .fstr (toISOString ms)
  | f => f

/-- Per-value action of `parseJSONWithDates`'s reviver: strings matching the
regexp become dates, everything else is passed through. -/
def parseField : Field → Field
  | .fstr s => if jsDateTest s then .fdate (newDateMs s.data) else .fstr s
  | f => f

def stringifyRow (r : Row) : Row := r.map (fun kv => (kv.1, stringifyField kv.2))

def parseRow (r : Row) : Row := r.map (fun kv => (kv.1, parseField kv.2))

def stringifyRows (rs : List Row) : List Row := rs.map stringifyRow

def parseRows (rs : List Row) : List Row := rs.map parseRow

/-- Fields on which the write→read cycle is faithful: dates whose year fits
the 24-character ISO form, and strings that the reviver regexp does not
match. -/
def fieldOk : Field → Bool
  | .fdate ms => dateInRange ms
  | .fstr s => !(jsDateTest s)
  | _ => true

/-- Whether a field is a date. -/
def fieldIsDate : Field → Bool
  | .fdate _ => true
  | _ => false

/-- Rows are `ok` when every date field's year fits the 24-character ISO
form and no string field matches the reviver regexp. -/
def rowsOk (rows : List Row) : Bool :=
  rows.all (fun r => r.all (fun kv => fieldOk kv.2))

/-- Whether some row contains a date-typed field. -/
def rowsHaveDate (rows : List Row) : Bool :=
  rows.any (fun r => r.any (fun kv => fieldIsDate kv.2))

/-- Shape asserted by the C5 specification sentence: four digits, dash, two
digits, dash, two digits, `T`, two digits, colon, two digits, colon, two
digits, a literal dot, three digits, `Z` (written from the spec's words,
to be compared with the source's `jsDateTest`). -/
def strictIsoShape (s : String) : Bool :=
  match s.data with
  | [y1, y2, y3, y4, '-', a1, a2, '-', b1, b2, 'T', h1, h2, ':', n1, n2, ':',
     t1, t2, '.', f1, f2, f3, 'Z'] =>
    y1.isDigit && y2.isDigit && y3.isDigit && y4.isDigit &&
    a1.isDigit && a2.isDigit && b1.isDigit && b2.isDigit &&
    h1.isDigit && h2.isDigit && n1.isDigit && n2.isDigit &&
    t1.isDigit && t2.isDigit && f1.isDigit && f2.isDigit && f3.isDigit
  | _ => false

/-! ## Backup writer (`backupTables`) and table resolver -/

/-- Structured content of a backup file after a plain JSON parse (before the
reviver): a single-file artifact holds a table-name → row-array object, a
multi-file member holds one row array; `other` stands for a JSON value of
neither shape (on which the source's `Array.isArray` / `Object.entries`
guards restore nothing). -/
inductive FileContent where
  | tablesMap (m : List (String × List Row))
  | rowsArr (rs : List Row)
  | other
deriving DecidableEq

/-- A directory entry: file name and parsed content. -/
structure FileEntry where
  name : String
  content : FileContent
deriving DecidableEq

/-- JavaScript object property assignment `obj[k] = v`: insertion order kept,
existing key overwritten in place. -/
def objSet (m : List (String × List Row)) (k : String) (v : List Row) :
    List (String × List Row) :=
  match m with
  | [] => [(k, v)]
  | (k1, v1) :: rest =>
    if k1 = k then (k1, v) :: rest else (k1, v1) :: objSet rest k v

/-- Object lookup `obj[k]`. -/
def objGet (m : List (String × List Row)) (k : String) : Option (List Row) :=
  (m.find? (fun kv => kv.1 == k)).map (fun kv => kv.2)

/-- `Array.prototype.join(', ')`. -/
def joinComma : List String → String
  | [] => ""
  | [s] => s
  | s :: rest => s ++ ", " ++ joinComma rest

/-- `Array.prototype.join('\n')`. -/
def joinNewline : List String → String
  | [] => ""
  | [s] => s
  | s :: rest => s ++ "\n" ++ joinNewline rest

/-- The result message both branches of `backupTables` build:
`备份完成（succ/total）\ntimestamp`, plus a failed-tables line when any
fetch failed. -/
def backupMessage (succ total : Nat) (timestamp : String) (failed : List String) : String :=
  let base := "备份完成（" ++ natToString succ ++ "/" ++ natToString total ++ "）\n" ++ timestamp
  if failed = [] then base else base ++ "\n失败表: " ++ joinComma failed

/-- Result of one `backupTables` run: the files written, the reported
success count, the failed-table list and the user-visible message. -/
structure BackupRunResult where
  filesWritten : List FileEntry
  successCount : Nat
  failedTables : List String
  message : String
deriving DecidableEq

/-- Embedding of `BackupService.backupTables`.  `fetch` stands for
`ctx.database.get(table, {})`: either the table's rows or a thrown error.
Written rows pass through `JSON.stringify`, which renders date fields as
ISO strings (`stringifyRows`). -/
def backupTables (fetch : String → Except String (List Row)) (tables : List String)
    (timestamp : String) (singleFile : Bool) : BackupRunResult :=
  if singleFile then
    let r := tables.foldl (fun (acc : List (String × List Row) × Nat × List String) table =>
      match fetch table with
      | .ok rows => (objSet acc.1 table rows, acc.2.1 + 1, acc.2.2)
      | .error _ => (acc.1, acc.2.1, acc.2.2 ++ [table])) ([], 0, [])
    ⟨[⟨singleBackupFileName timestamp,
       .tablesMap (r.1.map (fun kv => (kv.1, stringifyRows kv.2)))⟩],
     r.2.1, r.2.2, backupMessage r.2.1 tables.length timestamp r.2.2⟩
  else
    let r := tables.foldl (fun (acc : List FileEntry × List String × List String) table =>
      match fetch table with
      | .ok rows =>
        (acc.1 ++ [⟨multiBackupFileName timestamp table, .rowsArr (stringifyRows rows)⟩],
         acc.2.1 ++ [multiBackupFileName timestamp table], acc.2.2)
      | .error _ => (acc.1, acc.2.1, acc.2.2 ++ [table])) ([], [], [])
    ⟨r.1, r.2.1.length, r.2.2, backupMessage r.2.1.length tables.length timestamp r.2.2⟩

/-- JavaScript `String.prototype.toLowerCase` (ASCII range suffices for the
table names involved). -/
def toLowerStr (s : String) : String := String.mk (s.data.map Char.toLower)

/-- JavaScript `Set.prototype.add` materialized over an insertion-ordered
list. -/
def setAdd (l : List String) (x : String) : List String :=
  if x ∈ l then l else l ++ [x]

/-- `new Set(l)` materialized in insertion order. -/
def setOfList (l : List String) : List String := l.foldl setAdd []

/-- The no-subset path of `getTablesForBackup`: start from the live-table
set, then for each configured name add its canonical-cased live match if
one exists case-insensitively, or the name itself verbatim. -/
def resolveUnion (existing config : List String) : List String :=
  config.foldl (fun acc c =>
    match existing.find? (fun e => toLowerStr e == toLowerStr c) with
    | some m => setAdd acc m
    | none => setAdd acc c) (setOfList existing)

/-- Embedding of `BackupService.getTablesForBackup`: `existing` are the live
table names from `database.stats()`, `config` the configured special names,
`specific` the optional explicit subset (a non-empty array is truthy in the
source's `specificTables?.length` test). -/
def getTablesForBackup (existing config : List String)
    (specific : Option (List String)) : List String :=
  match specific with
  | some (t :: ts) =>
    (t :: ts).filter (fun tb => existing.any (fun e => toLowerStr e == toLowerStr tb))
  | _ => resolveUnion existing config

/-! ## Restore reader (`restoreBackup`, `performRestore`) -/

/-- Observable effects of a backup/restore run: datastore calls and
file-system operations.  `readDir` is `fs.readdir` on the backup
directory.  Constructors exist for every mutating datastore operation the
external interface offers, so that the frame claim "restore only ever
upserts" is expressible. -/
inductive Eff where
  | dbUpsert (table : String) (rows : List Row)
  | dbRemove (table : String)
  | dbDrop (table : String)
  | dbCreate (table : String)
  | fileRead (name : String)
  | fileWrite (name : String)
  | fileDelete (name : String)
  | readDir
deriving DecidableEq

/-- The reviver applied to a whole parsed file (`JSON.parse` visits every
nested value, so every row field goes through `parseField`). -/
def parseContent : FileContent → FileContent
  | .tablesMap m => .tablesMap (m.map (fun kv => (kv.1, parseRows kv.2)))
  | .rowsArr rs => .rowsArr (parseRows rs)
  | .other => .other

/-- Directory lookup by exact file name. -/
def findFile (dir : List FileEntry) (name : String) : Option FileEntry :=
  dir.find? (fun fe => fe.name == name)

/-- Embedding of `BackupService.restoreBackup`: returns the list of restored
tables and the trace of observable effects, in order.  A missing single
file (`fs.readFile` throwing) is the caught-error path returning `[]`. -/
def restoreBackup (dir : List FileEntry) (singleFile : Bool)
    (backup : BackupEntry) (tableNames : Option (List String)) :
    List String × List Eff :=
  if singleFile then
    match findFile dir (singleBackupFileName backup.timestamp) with
    | none => ([], [])
    | some fe =>
      match parseContent fe.content with
      | .tablesMap allData =>
        match tableNames with
        | some (t :: ts) =>
          (t :: ts).foldl (fun (acc : List String × List Eff) tableName =>
            match objGet allData tableName with
            | some data =>
              if 0 < data.length then
                (acc.1 ++ [tableName], acc.2 ++ [.dbUpsert tableName data])
              else acc
            | none => acc) ([], [.fileRead fe.name])
        | _ =>
          allData.foldl (fun (acc : List String × List Eff) kv =>
            if 0 < kv.2.length then
              (acc.1 ++ [kv.1], acc.2 ++ [.dbUpsert kv.1 kv.2])
            else acc) ([], [.fileRead fe.name])
      | _ => ([], [.fileRead fe.name])
  else
    match tableNames with
    | some (t :: ts) =>
      (t :: ts).foldl (fun (acc : List String × List Eff) tableName =>
        match findFile dir (multiBackupFileName backup.timestamp tableName) with
        | none => acc
        | some fe =>
          match parseContent fe.content with
          | .rowsArr data =>
            if 0 < data.length then
              (acc.1 ++ [tableName], acc.2 ++ [.fileRead fe.name, .dbUpsert tableName data])
            else (acc.1, acc.2 ++ [.fileRead fe.name])
          | _ => (acc.1, acc.2 ++ [.fileRead fe.name])) ([], [.readDir])
    | _ =>
      ((dir.map (fun fe => fe.name)).filter
          (fun f => (matchTimestampFile backup.timestamp f).isSome)).foldl
        (fun (acc : List String × List Eff) fileName =>
          match matchMultiBackup fileName with
          | none => acc
          | some p =>
            match findFile dir fileName with
            | none => acc
            | some fe =>
              match parseContent fe.content with
              | .rowsArr data =>
                if 0 < data.length then
                  (acc.1 ++ [p.2], acc.2 ++ [.fileRead fileName, .dbUpsert p.2 data])
                else (acc.1, acc.2 ++ [.fileRead fileName])
              | _ => (acc.1, acc.2 ++ [.fileRead fileName])) ([], [.readDir])

/-- Embedding of `BackupService.formatTimestamp`: fixed slices of the
timestamp string (positions 0-8 for the date, 9-15 for the time). -/
def formatTimestampPair (timestamp : String) : String × String :=
  (String.mk (timestamp.data.take 4) ++ "-" ++
     String.mk ((timestamp.data.drop 4).take 2) ++ "-" ++
     String.mk ((timestamp.data.drop 6).take 2),
   String.mk ((timestamp.data.drop 9).take 2) ++ ":" ++
     String.mk ((timestamp.data.drop 11).take 2) ++ ":" ++
     String.mk ((timestamp.data.drop 13).take 2))

/-- One line of the catalog listing (`idx` is 0-based here, printed
1-based). -/
def formatBackupLine (singleFile : Bool) (idx : Nat) (b : BackupEntry) : String :=
  let dt := formatTimestampPair b.timestamp
  let count : Nat :=
    if singleFile then 1 else
      match b.tables with
      | some ts => ts.length
      | none => 0
  natToString (idx + 1) ++ ". " ++ dt.1 ++ " " ++ dt.2 ++ "（" ++ natToString count ++ "）"

/-- Embedding of `BackupService.formatBackupsList`. -/
def formatBackupsList (backups : List BackupEntry) (singleFile : Bool) : String :=
  "可用备份（指定序号进行恢复）：\n" ++
    joinNewline (backups.enum.map (fun p => formatBackupLine singleFile p.1 p.2))

/-- JavaScript whitespace accepted (and skipped) by `parseInt` — the ASCII
part, which covers the strings at hand. -/
def jsSpaceChar (c : Char) : Bool :=
  c == ' ' || c == '\t' || c == '\n' || c == '\r' ||
    c == Char.ofNat 11 || c == Char.ofNat 12

def isHexDigitChar (c : Char) : Bool :=
  c.isDigit || ('a' ≤ c && c ≤ 'f') || ('A' ≤ c && c ≤ 'F')

def hexDigitVal (c : Char) : Nat :=
  if c.isDigit then digitVal c
  else if 'a' ≤ c && c ≤ 'f' then c.toNat - 87
  else c.toNat - 55

def decValue (ds : List Char) : Nat := ds.foldl (fun a c => a * 10 + digitVal c) 0

def hexValue (ds : List Char) : Nat := ds.foldl (fun a c => a * 16 + hexDigitVal c) 0

/-- Embedding of JavaScript `parseInt(s)` (radix unspecified): skip leading
whitespace, optional sign, `0x`/`0X` switches to base 16, then the maximal
digit run; no digits means `NaN`, modelled as `none`. -/
def jsParseInt (s : String) : Option Int :=
  let cs := s.data.dropWhile jsSpaceChar
  let signAndRest : Bool × List Char :=
    match cs with
    | '-' :: r => (true, r)
    | '+' :: r => (false, r)
    | r => (false, r)
  let withSign : Nat → Int := fun n =>
    if signAndRest.1 then -(n : Int) else (n : Int)
  match signAndRest.2 with
  | '0' :: 'x' :: r =>
    let hs := r.takeWhile isHexDigitChar
    if hs = [] then none else some (withSign (hexValue hs))
  | '0' :: 'X' :: r =>
    let hs := r.takeWhile isHexDigitChar
    if hs = [] then none else some (withSign (hexValue hs))
  | r =>
    let ds := r.takeWhile Char.isDigit
    if ds = [] then none else some (withSign (decValue ds))

/-- Embedding of `BackupService.performRestore`: the returned user message
and the trace of observable effects.  `index = none` is a call without the
argument; the source's falsy test `!index` also sends the empty string to
the listing branch. -/
def performRestore (dir : List FileEntry) (singleFile : Bool)
    (index : Option String) (tableNames : Option (List String)) :
    String × List Eff :=
  let backups := listBackups (dir.map (fun fe => fe.name)) singleFile
  if backups.length = 0 then ("无可用备份", [.readDir])
  else
    match index with
    | none => (formatBackupsList backups singleFile, [.readDir])
    | some idxStr =>
      if idxStr = "" then (formatBackupsList backups singleFile, [.readDir])
      else
        match jsParseInt idxStr with
        | none => ("无效序号", [.readDir])
        | some i =>
          if i - 1 < 0 ∨ (backups.length : Int) ≤ i - 1 then ("无效序号", [.readDir])
          else
            let target := backups.getD (i - 1).toNat ⟨"", none⟩
            let r := restoreBackup dir singleFile target tableNames
            let msg :=
              if r.1.length = 0 then
                match tableNames with
                | some (t :: ts) => "未找到备份表 " ++ joinComma (t :: ts)
                | _ => "无有效数据"
              else
                match tableNames with
                | some (_ :: _) => "已恢复备份表 " ++ joinComma r.1
                | _ =>
                  "已恢复备份（" ++ natToString r.1.length ++ "/" ++
                    natToString (match target.tables with
                      | some (t :: ts) => (t :: ts).length
                      | _ => 1) ++ "）"
            (msg, .readDir :: r.2)

/-! ## Datastore state and upsert semantics -/

/-- Model of the external datastore's `upsert` (insert-or-update by primary
key, the interface contract stated by the spec): rows whose key matches an
existing row replace it in place, the rest are appended.  `keyOf` abstracts
the table's primary-key extraction. -/
def upsertRows (keyOf : Row → Field) (old new : List Row) : List Row :=
  old.map (fun r =>
    match new.find? (fun n => decide (keyOf n = keyOf r)) with
    | some n => n
    | none => r) ++
  new.filter (fun n => !(old.any (fun r => decide (keyOf r = keyOf n))))

/-- Effect of one datastore/file operation on the datastore state (a map
from table name to rows).  File operations leave the datastore unchanged;
`remove`/`drop` clear the table, `create` is a schema operation. -/
def applyEff (keyOf : Row → Field) (st : String → List Row) : Eff → String → List Row
  | .dbUpsert t rows => fun t1 => if t1 = t then upsertRows keyOf (st t) rows else st t1
  | .dbRemove t => fun t1 => if t1 = t then [] else st t1
  | .dbDrop t => fun t1 => if t1 = t then [] else st t1
  | _ => st

def applyEffs (keyOf : Row → Field) (st : String → List Row) : List Eff → String → List Row
  | [] => st
  | e :: es => applyEffs keyOf (applyEff keyOf st e) es

/-- A trace is benign for a restored-table list when it only ever upserts
(into restored tables), reads files or lists the directory — in particular
it never removes, drops, creates, writes or deletes anything. -/
def traceOk (restored : List String) (effs : List Eff) : Bool :=
  effs.all (fun e =>
    match e with
    | .dbUpsert t _ => decide (t ∈ restored)
    | .fileRead _ => true
    | .readDir => true
    | _ => false)

/-! ## Retention sweeper (`cleanupOldBackups`) -/

/-- The sweep's file test `file.startsWith('backup_')`, at character
level. -/
def startsWithBackup (f : String) : Bool := decide (f.data.take 7 = "backup_".data)

/-- Embedding of `BackupService.cleanupOldBackups` over the directory's file
names: returns (deleted files, remaining files).  No-op for `keepCount = 0`
(the source's falsy test). -/
def cleanupOldBackups (files : List String) (keepCount : Nat) :
    List String × List String :=
  if keepCount = 0 then ([], files)
  else
    let backupFiles := sortDescBy (fun f => f) (files.filter startsWithBackup)
    let deleted := backupFiles.drop keepCount
    (deleted, files.filter (fun f => decide (f ∉ deleted)))

/-! ## Concrete instances used by witnesses and counterexamples -/

/-- The writer timestamp for local time 2025-01-02 03:04:05. -/
def tsExample : String := getTimestamp ⟨2025, 1, 2, 3, 4, 5⟩

/-- A multi-file artifact for tables `a`, `b`, `c` as the Backup Writer lays
it out under `tsExample`. -/
def multiDirExample : List FileEntry :=
  [⟨multiBackupFileName tsExample "a", .rowsArr [[("id", Field.fnum 1)]]⟩,
   ⟨multiBackupFileName tsExample "b", .rowsArr [[("id", Field.fnum 2)]]⟩,
   ⟨multiBackupFileName tsExample "c", .rowsArr [[("id", Field.fnum 3)]]⟩]

/-- A datastore fetch with table `B` failing and `A`, `C` succeeding. -/
def fetchExample : String → Except String (List Row) :=
  fun t =>
    if t = "B" then .error "boom"
    else if t = "A" then .ok [[("id", Field.fnum 1)]]
    else .ok [[("id", Field.fnum 3)]]

/-- A concrete primary-key extraction: the first field's value. -/
def keyOfExample (r : Row) : Field := (r.headD ("", Field.fnull)).2

/-- A concrete datastore state: table `a` holds one row, all others are
empty. -/
def stExample : String → List Row :=
  fun t => if t = "a" then [[("id", Field.fnum 9)]] else []

/-- C1: for a single-file artifact written by the Backup Writer under the
codec's timestamp (here local time 2025-01-02 03:04:05, giving
`backup_20250102_030405.json`), `listBackups` in single-file mode returns no
entry at all — the catalog regexp `/^backup_(\d+)\.json$/` cannot match the
underscore inside the writer's own `YYYYMMDD_HHMMSS` timestamp, so the
claimed "exactly one catalog entry carrying that timestamp" fails on every
writer-produced file. -/
theorem c1_writer_single_file_never_catalogued :
    getTimestamp ⟨2025, 1, 2, 3, 4, 5⟩ = "20250102_030405" ∧
    listBackups [singleBackupFileName (getTimestamp ⟨2025, 1, 2, 3, 4, 5⟩)] true = [] := by
  decide

/-- C2: for multi-file artifact members written by the Backup Writer (here
tables `user` and `channel` under writer timestamp `20250102_030405`), the
catalog groups them under the timestamp `"20250102"` — only the date half —
and records the table names as `"030405_user"` and `"030405_channel"`,
polluted by the time half; the entry claimed by the spec (writer timestamp
with tables `["user", "channel"]`) is not produced. -/
theorem c2_writer_multi_files_miscatalogued :
    listBackups
        [multiBackupFileName (getTimestamp ⟨2025, 1, 2, 3, 4, 5⟩) "user",
         multiBackupFileName (getTimestamp ⟨2025, 1, 2, 3, 4, 5⟩) "channel"] false =
      [⟨"20250102", some ["030405_user", "030405_channel"]⟩] ∧
    listBackups
        [multiBackupFileName (getTimestamp ⟨2025, 1, 2, 3, 4, 5⟩) "user",
         multiBackupFileName (getTimestamp ⟨2025, 1, 2, 3, 4, 5⟩) "channel"] false ≠
      [⟨"20250102_030405", some ["user", "channel"]⟩] := by
  decide

/-! ### Calendar inversion -/

theorem daysInYear_ge (y : Nat) : 365 ≤ daysInYear y := by
  unfold daysInYear; split <;> omega

theorem daysInMonth_le (y m : Nat) : daysInMonth y m ≤ 31 := by
  unfold daysInMonth
  split
  · split <;> omega
  · split <;> omega

theorem yearsBefore_succ (y : Nat) (h : 1970 ≤ y) :
    yearsBefore (y + 1) = yearsBefore y + daysInYear y := by
  unfold yearsBefore
  have h1 : y + 1 - 1970 = (y - 1970) + 1 := by omega
  have h2 : 1970 + (y - 1970) = y := by omega
  rw [h1, yearsBeforeGo, h2]

theorem yearSplitGo_spec : ∀ (fuel y d : Nat), 1970 ≤ y → d < 365 * fuel →
    yearsBefore (yearSplitGo fuel y d).1 + (yearSplitGo fuel y d).2 = yearsBefore y + d ∧
    (yearSplitGo fuel y d).2 < daysInYear (yearSplitGo fuel y d).1 ∧
    y ≤ (yearSplitGo fuel y d).1 := by
  intro fuel
  induction fuel with
  | zero => intro y d _ hd; omega
  | succ fuel ih =>
    intro y d hy hd
    simp only [yearSplitGo]
    by_cases h : daysInYear y ≤ d
    · rw [if_pos h]
      have h365 := daysInYear_ge y
      have hrec := ih (y + 1) (d - daysInYear y) (by omega) (by omega)
      have hs := yearsBefore_succ y hy
      obtain ⟨e1, e2, e3⟩ := hrec
      exact ⟨by omega, e2, by omega⟩
    · rw [if_neg h]
      refine ⟨rfl, ?_, Nat.le_refl y⟩
      show d < daysInYear y
      omega

theorem monthsBefore_succ (y m : Nat) (h : 1 ≤ m) :
    monthsBefore y (m + 1) = monthsBefore y m + daysInMonth y m := by
  obtain ⟨k, rfl⟩ : ∃ k, m = k + 1 := ⟨m - 1, by omega⟩
  rfl

theorem monthsBefore_thirteen (y : Nat) : monthsBefore y 13 = daysInYear y := by
  by_cases h : isLeap y <;>
    simp [monthsBefore, daysInMonth, daysInYear, h]

theorem monthSplitGo_spec : ∀ (fuel : Nat) (y m d : Nat), 1 ≤ m → m + fuel = 12 →
    monthsBefore y m + d < daysInYear y →
    monthsBefore y (monthSplitGo fuel y m d).1 + (monthSplitGo fuel y m d).2 =
      monthsBefore y m + d ∧
    (monthSplitGo fuel y m d).2 < daysInMonth y (monthSplitGo fuel y m d).1 ∧
    1 ≤ (monthSplitGo fuel y m d).1 ∧ (monthSplitGo fuel y m d).1 ≤ 12 := by
  intro fuel
  induction fuel with
  | zero =>
    intro y m d hm hf hd
    have hm12 : m = 12 := by omega
    subst hm12
    have h13 : monthsBefore y 13 = daysInYear y := monthsBefore_thirteen y
    have hstep : monthsBefore y 13 = monthsBefore y 12 + daysInMonth y 12 :=
      monthsBefore_succ y 12 (by omega)
    simp only [monthSplitGo]
    exact ⟨by trivial, by omega, by omega, by omega⟩
  | succ fuel ih =>
    intro y m d hm hf hd
    simp only [monthSplitGo]
    by_cases h : daysInMonth y m ≤ d ∧ m < 12
    · rw [if_pos h]
      have hstep : monthsBefore y (m + 1) = monthsBefore y m + daysInMonth y m :=
        monthsBefore_succ y m hm
      have hrec := ih y (m + 1) (d - daysInMonth y m) (by omega) (by omega) (by omega)
      obtain ⟨e1, e2, e3, e4⟩ := hrec
      exact ⟨by omega, e2, e3, e4⟩
    · rw [if_neg h]
      have hlt : m < 12 := by omega
      have hdm : d < daysInMonth y m := by
        rcases Decidable.not_and_iff_or_not.mp h with h1 | h2
        · omega
        · omega
      exact ⟨rfl, hdm, hm, by omega⟩

theorem civilFromDays_spec (d : Nat) :
    daysFromCivil (civilFromDays d).1 (civilFromDays d).2.1 (civilFromDays d).2.2 = d ∧
    1970 ≤ (civilFromDays d).1 ∧
    1 ≤ (civilFromDays d).2.1 ∧ (civilFromDays d).2.1 ≤ 12 ∧
    1 ≤ (civilFromDays d).2.2 ∧ (civilFromDays d).2.2 ≤ 31 := by
  have hY := yearSplitGo_spec (d + 1) 1970 d (by omega) (by omega)
  obtain ⟨hy1, hy2, hy3⟩ := hY
  have hM := monthSplitGo_spec 11 (yearSplitGo (d + 1) 1970 d).1 1
      (yearSplitGo (d + 1) 1970 d).2 (by omega) (by omega)
      (by simpa [monthsBefore] using hy2)
  obtain ⟨hm1, hm2, hm3, hm4⟩ := hM
  have hz : yearsBefore 1970 = 0 := rfl
  have hb0 : monthsBefore (yearSplitGo (d + 1) 1970 d).1 1 = 0 := rfl
  have hdim := daysInMonth_le (yearSplitGo (d + 1) 1970 d).1
      (monthSplitGo 11 (yearSplitGo (d + 1) 1970 d).1 1 (yearSplitGo (d + 1) 1970 d).2).1
  simp only [civilFromDays, yearSplit, monthSplit, daysFromCivil]
  refine ⟨by omega, by omega, hm3, hm4, by omega, by omega⟩

/-! ### Digits and ISO inversion -/

theorem digitVal_digitChar_mod (n : Nat) : digitVal (digitChar (n % 10)) = n % 10 := by
  have h : n % 10 < 10 := Nat.mod_lt _ (by omega)
  revert h
  generalize n % 10 = k
  revert k
  decide

theorem digitChar_isDigit_mod (n : Nat) : (digitChar (n % 10)).isDigit = true := by
  have h : n % 10 < 10 := Nat.mod_lt _ (by omega)
  revert h
  generalize n % 10 = k
  revert k
  decide

theorem jsDateTest_isoBuild (y mo dd hh mi ss ff : Nat) :
    jsDateTest (String.mk (isoBuild y mo dd hh mi ss ff)) = true := by
  simp only [isoBuild, pad4, pad3, pad2, List.cons_append, List.nil_append, jsDateTest,
    digitChar_isDigit_mod]
  decide

theorem newDateMs_isoBuild (y mo dd hh mi ss ff : Nat) (hy : y < 10000) (hmo : mo < 100)
    (hdd : dd < 100) (hhh : hh < 100) (hmi : mi < 100) (hss : ss < 100) (hff : ff < 1000) :
    newDateMs (isoBuild y mo dd hh mi ss ff) =
      daysFromCivil y mo dd * msPerDay + hh * 3600000 + mi * 60000 + ss * 1000 + ff := by
  simp only [isoBuild, pad4, pad3, pad2, List.cons_append, List.nil_append, newDateMs,
    digitVal_digitChar_mod]
  have e1 : 1000 * (y / 1000 % 10) + 100 * (y / 100 % 10) + 10 * (y / 10 % 10) + y % 10 = y := by
    omega
  have e2 : 10 * (mo / 10 % 10) + mo % 10 = mo := by omega
  have e3 : 10 * (dd / 10 % 10) + dd % 10 = dd := by omega
  have e4 : 10 * (hh / 10 % 10) + hh % 10 = hh := by omega
  have e5 : 10 * (mi / 10 % 10) + mi % 10 = mi := by omega
  have e6 : 10 * (ss / 10 % 10) + ss % 10 = ss := by omega
  have e7 : 100 * (ff / 100 % 10) + 10 * (ff / 10 % 10) + ff % 10 = ff := by omega
  rw [e1, e2, e3, e4, e5, e6, e7]

theorem parse_toISO (ms : Nat) (h : dateInRange ms = true) :
    jsDateTest (toISOString ms) = true ∧ newDateMs (toISOChars ms) = ms := by
  have hc := civilFromDays_spec (ms / msPerDay)
  obtain ⟨hc1, hc2, hc3, hc4, hc5, hc6⟩ := hc
  have hy : (civilFromDays (ms / msPerDay)).1 ≤ 9999 := by
    simpa [dateInRange] using h
  have hv : ms % msPerDay < 86400000 := by
    have : 0 < msPerDay := by simp [msPerDay]
    simpa [msPerDay] using Nat.mod_lt ms this
  constructor
  · simp only [toISOString, toISOChars]
    exact jsDateTest_isoBuild _ _ _ _ _ _ _
  · simp only [toISOChars]
    rw [newDateMs_isoBuild _ _ _ _ _ _ _ (by omega) (by omega) (by omega)
      (by omega) (by omega) (by omega) (by omega)]
    rw [hc1]
    simp only [msPerDay] at hv ⊢
    omega

/-! ### Field-level round trip -/

theorem parseField_stringifyField (f : Field) (h : fieldOk f = true) :
    parseField (stringifyField f) = f := by
  cases f with
  | fnull => rfl
  | fbool b => rfl
  | fnum n => rfl
  | fstr s =>
    have hs : jsDateTest s = false := by simpa [fieldOk] using h
    simp [stringifyField, parseField, hs]
  | fdate ms =>
    have hms : dateInRange ms = true := by simpa [fieldOk] using h
    have hp := parse_toISO ms hms
    have h1 : jsDateTest (String.mk (toISOChars ms)) = true := hp.1
    have h2 : newDateMs (String.mk (toISOChars ms)).data = ms := hp.2
    simp [stringifyField, parseField, toISOString, h1, h2]

theorem parseRow_stringifyRow (r : Row) (h : r.all (fun kv => fieldOk kv.2) = true) :
    parseRow (stringifyRow r) = r := by
  induction r with
  | nil => rfl
  | cons kv rest ih =>
    rw [List.all_cons, Bool.and_eq_true] at h
    simp only [parseRow, stringifyRow, List.map_cons] at ih ⊢
    rw [parseField_stringifyField kv.2 h.1]
    rw [ih h.2]

theorem parseRows_stringifyRows (rows : List Row) (hok : rowsOk rows = true) :
    parseRows (stringifyRows rows) = rows := by
  induction rows with
  | nil => rfl
  | cons r rest ih =>
    rw [rowsOk, List.all_cons, Bool.and_eq_true] at hok
    simp only [parseRows, stringifyRows, List.map_cons]
    rw [parseRow_stringifyRow r hok.1]
    have htail := ih hok.2
    simp only [parseRows, stringifyRows] at htail
    rw [htail]

/-- C3 (counterexample): a row set with a date field and a string field that
happens to spell an ISO instant is not reproduced byte-for-byte by the
write→read cycle — the reviver converts the string field into a date. -/
theorem c3_counterexample :
    rowsHaveDate [[("d", Field.fdate 0), ("s", Field.fstr "1970-01-01T00:00:00.000Z")]] = true ∧
    parseRows (stringifyRows
        [[("d", Field.fdate 0), ("s", Field.fstr "1970-01-01T00:00:00.000Z")]]) ≠
      [[("d", Field.fdate 0), ("s", Field.fstr "1970-01-01T00:00:00.000Z")]] := by
  decide

/-- C3 (amended): for any set of rows containing at least one date field, if
every date's year fits the plain 24-character ISO form (1970–9999) and no
string field matches the reviver regexp, then deserializing the serialized
form reproduces every date field as an equal instant to the millisecond and
every other field byte-for-byte. -/
theorem c3_roundtrip_amended (rows : List Row) (hok : rowsOk rows = true)
    (_hdate : rowsHaveDate rows = true) :
    parseRows (stringifyRows rows) = rows :=
  parseRows_stringifyRows rows hok

theorem c3_roundtrip_amended_witness :
    parseRows (stringifyRows [[("d", Field.fdate 86400000), ("n", Field.fnum 5)]]) =
      [[("d", Field.fdate 86400000), ("n", Field.fnum 5)]] :=
  c3_roundtrip_amended [[("d", Field.fdate 86400000), ("n", Field.fnum 5)]]
    (by decide) (by decide)

/-- C5 (counterexample): the string `1111-11-11T11:11:11x111Z` is not of the
claimed strict literal-dot shape, yet the reviver does not pass it through
unchanged — the unescaped dot in the source regexp accepts the `x`, and the
value is converted to a date. -/
theorem c5_counterexample :
    strictIsoShape "1111-11-11T11:11:11x111Z" = false ∧
    parseField (Field.fstr "1111-11-11T11:11:11x111Z") ≠
      Field.fstr "1111-11-11T11:11:11x111Z" := by
  decide

/-- C5 (amended): during restore deserialization a string value is converted
to a date exactly when the source's reviver test accepts it — the strict
pattern with the dot position relaxed to any single non-line-terminator
character; any string the test rejects is passed through unchanged, and
every string the date serializer produces for an in-range instant is
accepted and converted back to exactly that instant. -/
theorem c5_revival_amended (s : String) (ms : Nat) :
    (jsDateTest s = false → parseField (Field.fstr s) = Field.fstr s) ∧
    (jsDateTest s = true → parseField (Field.fstr s) = Field.fdate (newDateMs s.data)) ∧
    (dateInRange ms = true → parseField (Field.fstr (toISOString ms)) = Field.fdate ms) := by
  refine ⟨fun h => by simp [parseField, h], fun h => by simp [parseField, h], fun h => ?_⟩
  have hp := parse_toISO ms h
  have h1 : jsDateTest (String.mk (toISOChars ms)) = true := hp.1
  have h2 : newDateMs (String.mk (toISOChars ms)).data = ms := hp.2
  simp [parseField, toISOString, h1, h2]

theorem c5_revival_amended_witness :
    parseField (Field.fstr "hello") = Field.fstr "hello" ∧
    parseField (Field.fstr (toISOString 86400000)) = Field.fdate 86400000 :=
  ⟨(c5_revival_amended "hello" 86400000).1 (by decide),
   (c5_revival_amended "hello" 86400000).2.2 (by decide)⟩

/-- C4: for the multi-file artifact the Backup Writer lays out for tables
`a`, `b`, `c` under timestamp `20250102_030405`, the catalog entry carries
the mangled timestamp `20250102` and polluted table names, and restoring
the subset `["b"]` from that entry finds no file (`backup_20250102_b.json`
does not exist), restores nothing and issues no upsert; the end-to-end
command answers `未找到备份表 b` instead of restoring table `b`. -/
theorem c4_subset_restore_broken :
    listBackups (multiDirExample.map (fun fe => fe.name)) false =
      [⟨"20250102", some ["030405_a", "030405_b", "030405_c"]⟩] ∧
    restoreBackup multiDirExample false
        ⟨"20250102", some ["030405_a", "030405_b", "030405_c"]⟩ (some ["b"]) =
      ([], [.readDir]) ∧
    performRestore multiDirExample false (some "1") (some ["b"]) =
      ("未找到备份表 b", [.readDir, .readDir]) := by
  decide

/-- C6: if fetching table `B` fails while `A` and `C` succeed, the run
continues: in single-file mode the one artifact holds exactly `A`'s and
`C`'s rows, in multi-file mode exactly `A`'s and `C`'s files are written;
in both modes the failed list is exactly `[B]` and the reported success
count is 2 of 3 attempted. -/
theorem c6_partial_failure_isolated (fetch : String → Except String (List Row))
    (ts A B C : String) (rowsA rowsC : List Row) (e : String)
    (hA : fetch A = .ok rowsA) (hB : fetch B = .error e) (hC : fetch C = .ok rowsC)
    (hAC : A ≠ C) :
    backupTables fetch [A, B, C] ts true =
      ⟨[⟨singleBackupFileName ts,
         .tablesMap [(A, stringifyRows rowsA), (C, stringifyRows rowsC)]⟩],
       2, [B], backupMessage 2 3 ts [B]⟩ ∧
    backupTables fetch [A, B, C] ts false =
      ⟨[⟨multiBackupFileName ts A, .rowsArr (stringifyRows rowsA)⟩,
        ⟨multiBackupFileName ts C, .rowsArr (stringifyRows rowsC)⟩],
       2, [B], backupMessage 2 3 ts [B]⟩ := by
  constructor
  · simp only [backupTables, List.foldl, hA, hB, hC]
    simp [objSet, hAC]
  · simp only [backupTables, List.foldl, hA, hB, hC]
    simp

theorem c6_partial_failure_isolated_witness :
    backupTables fetchExample ["A", "B", "C"] "20250102_030405" true =
      ⟨[⟨singleBackupFileName "20250102_030405",
         .tablesMap [("A", stringifyRows [[("id", Field.fnum 1)]]),
                     ("C", stringifyRows [[("id", Field.fnum 3)]])]⟩],
       2, ["B"], backupMessage 2 3 "20250102_030405" ["B"]⟩ :=
  (c6_partial_failure_isolated fetchExample "20250102_030405" "A" "B" "C"
    [[("id", Field.fnum 1)]] [[("id", Field.fnum 3)]] "boom"
    rfl rfl rfl (by decide)).1

/-- C9 (counterexample): with one listed backup, the empty index string is
non-numeric (`parseInt("")` is `NaN`), yet the operation returns the
catalog listing — the source's falsy test `!index` — and not the claimed
invalid-index message. -/
theorem c9_counterexample :
    jsParseInt "" = none ∧
    (performRestore [⟨"backup_20250102.json", .rowsArr []⟩] true (some "") none).1 ≠
      "无效序号" := by
  decide

/-- C9 (amended): whenever the catalog lists at least one backup and a
non-empty index string is supplied that is non-numeric, below 1 or greater
than the number of listed backups, restore returns the invalid-index
message and performs no side effects: the effect trace is the catalog's
directory listing alone — no upsert and no file read, write or delete. -/
theorem c9_invalid_index_amended (dir : List FileEntry) (singleFile : Bool)
    (idxStr : String) (tableNames : Option (List String))
    (hne : listBackups (dir.map (fun fe => fe.name)) singleFile ≠ [])
    (hidx : idxStr ≠ "")
    (hbad : ∀ i : Int, jsParseInt idxStr = some i →
      i < 1 ∨ ((listBackups (dir.map (fun fe => fe.name)) singleFile).length : Int) < i) :
    performRestore dir singleFile (some idxStr) tableNames = ("无效序号", [.readDir]) := by
  simp only [performRestore]
  rw [if_neg (by simpa [List.length_eq_zero] using hne)]
  rw [if_neg hidx]
  cases hp : jsParseInt idxStr with
  | none => rfl
  | some i =>
    have hi := hbad i hp
    exact if_pos (by omega)

theorem c9_invalid_index_amended_witness :
    performRestore [⟨"backup_20250102.json", .rowsArr []⟩] true (some "abc") none =
      ("无效序号", [.readDir]) :=
  c9_invalid_index_amended [⟨"backup_20250102.json", .rowsArr []⟩] true "abc" none
    (by decide) (by decide)
    (fun i h => by
      rw [(by decide : jsParseInt "abc" = none)] at h
      exact Option.noConfusion h)

/-! ### Resolver lemmas (C8) -/

theorem mem_setAdd {l : List String} {x y : String} : y ∈ setAdd l x ↔ y ∈ l ∨ y = x := by
  unfold setAdd
  split
  · rename_i h
    constructor
    · exact Or.inl
    · rintro (h1 | rfl)
      · exact h1
      · exact h
  · simp

theorem nodup_setAdd {l : List String} {x : String} (h : l.Nodup) : (setAdd l x).Nodup := by
  unfold setAdd
  split
  · exact h
  · rename_i hx
    simp [List.nodup_append, h, hx]

theorem mem_setFold (l : List String) :
    ∀ (acc : List String) (y : String), y ∈ l.foldl setAdd acc ↔ y ∈ acc ∨ y ∈ l := by
  induction l with
  | nil => simp
  | cons x xs ih =>
    intro acc y
    rw [List.foldl_cons, ih (setAdd acc x) y, mem_setAdd]
    simp only [List.mem_cons]
    tauto

theorem nodup_setFold (l : List String) :
    ∀ acc : List String, acc.Nodup → (l.foldl setAdd acc).Nodup := by
  induction l with
  | nil => intro acc h; exact h
  | cons x xs ih => intro acc h; exact ih _ (nodup_setAdd h)

theorem mem_setOfList (l : List String) (y : String) : y ∈ setOfList l ↔ y ∈ l := by
  unfold setOfList
  rw [mem_setFold]
  simp

theorem nodup_setOfList (l : List String) : (setOfList l).Nodup :=
  nodup_setFold l [] List.nodup_nil

theorem resolveUnion_fold_mem (existing : List String) :
    ∀ (config acc : List String), (∀ e ∈ existing, e ∈ acc) →
    ∀ y, (y ∈ config.foldl (fun acc c =>
        match existing.find? (fun e => toLowerStr e == toLowerStr c) with
        | some m => setAdd acc m
        | none => setAdd acc c) acc ↔
      y ∈ acc ∨ (y ∈ config ∧ ∀ e ∈ existing, toLowerStr e ≠ toLowerStr y)) := by
  intro config
  induction config with
  | nil => intro acc _ y; simp
  | cons c cfg ih =>
    intro acc hsub y
    rw [List.foldl_cons]
    cases hfind : existing.find? (fun e => toLowerStr e == toLowerStr c) with
    | some m =>
      dsimp only
      have hm : m ∈ existing := List.mem_of_find?_eq_some hfind
      have hmc : toLowerStr m = toLowerStr c := by
        have := List.find?_some hfind
        simpa using this
      have hmacc : setAdd acc m = acc := by
        unfold setAdd
        exact if_pos (hsub m hm)
      rw [hmacc, ih acc hsub y]
      constructor
      · rintro (h | ⟨h1, h2⟩)
        · exact Or.inl h
        · exact Or.inr ⟨List.mem_cons_of_mem c h1, h2⟩
      · rintro (h | ⟨h1, h2⟩)
        · exact Or.inl h
        · rcases List.mem_cons.mp h1 with rfl | h1c
          · exact absurd hmc (h2 m hm)
          · exact Or.inr ⟨h1c, h2⟩
    | none =>
      dsimp only
      have hnone : ∀ e ∈ existing, toLowerStr e ≠ toLowerStr c := by
        intro e he
        have := List.find?_eq_none.mp hfind e he
        simpa using this
      have hsub1 : ∀ e ∈ existing, e ∈ setAdd acc c :=
        fun e he => mem_setAdd.mpr (Or.inl (hsub e he))
      rw [ih (setAdd acc c) hsub1 y, mem_setAdd]
      constructor
      · rintro ((h | rfl) | ⟨h1, h2⟩)
        · exact Or.inl h
        · exact Or.inr ⟨List.mem_cons_self _ _, hnone⟩
        · exact Or.inr ⟨List.mem_cons_of_mem c h1, h2⟩
      · rintro (h | ⟨h1, h2⟩)
        · exact Or.inl (Or.inl h)
        · rcases List.mem_cons.mp h1 with rfl | h1c
          · exact Or.inl (Or.inr rfl)
          · exact Or.inr ⟨h1c, h2⟩

theorem resolveUnion_fold_nodup (existing : List String) :
    ∀ (config acc : List String), acc.Nodup →
    (config.foldl (fun acc c =>
        match existing.find? (fun e => toLowerStr e == toLowerStr c) with
        | some m => setAdd acc m
        | none => setAdd acc c) acc).Nodup := by
  intro config
  induction config with
  | nil => intro acc h; exact h
  | cons c cfg ih =>
    intro acc h
    rw [List.foldl_cons]
    cases hfind : existing.find? (fun e => toLowerStr e == toLowerStr c) with
    | some m =>
      dsimp only
      exact ih _ (nodup_setAdd h)
    | none =>
      dsimp only
      exact ih _ (nodup_setAdd h)

/-- C8 (counterexample): with live tables `User`, `Channel` and configured
special names `foo`, `FOO` (no live match), the resolver keeps both `foo`
and `FOO`, which are duplicates up to case — so the result is not
"deduplicated case-insensitively" as claimed. -/
theorem c8_counterexample :
    getTablesForBackup ["User", "Channel"] ["foo", "FOO"] none =
      ["User", "Channel", "foo", "FOO"] ∧
    toLowerStr "foo" = toLowerStr "FOO" ∧ "foo" ≠ "FOO" := by
  decide

/-- C8 (amended): with no explicit subset the resolver returns (without
exact-string duplicates) exactly the live tables together with those
configured special names that case-insensitively match no live table; a
configured name matching a live table case-insensitively is represented by
the live table's canonical casing, which is already present.  Dedup among
unmatched configured names themselves is exact-string, not
case-insensitive.  In particular, live `["User", "Channel"]` with config
`["user"]` yields exactly `["User", "Channel"]`. -/
theorem c8_resolver_amended (existing config : List String) :
    (getTablesForBackup existing config none).Nodup ∧
    (∀ y, y ∈ getTablesForBackup existing config none ↔
      y ∈ existing ∨ (y ∈ config ∧ ∀ e ∈ existing, toLowerStr e ≠ toLowerStr y)) ∧
    getTablesForBackup ["User", "Channel"] ["user"] none = ["User", "Channel"] := by
  have hre : getTablesForBackup existing config none = resolveUnion existing config := rfl
  refine ⟨?_, ?_, by decide⟩
  · rw [hre]
    exact resolveUnion_fold_nodup existing config (setOfList existing) (nodup_setOfList existing)
  · intro y
    rw [hre]
    unfold resolveUnion
    rw [resolveUnion_fold_mem existing config (setOfList existing)
        (fun e he => (mem_setOfList existing e).mpr he) y, mem_setOfList]

theorem c8_resolver_amended_witness :
    "FOO" ∈ getTablesForBackup ["User", "Channel"] ["foo", "FOO"] none :=
  ((c8_resolver_amended ["User", "Channel"] ["foo", "FOO"]).2.1 "FOO").mpr
    (Or.inr ⟨by decide, by decide⟩)

/-! ### Restore frame lemmas (C10) -/

theorem traceOk_append {restored : List String} {a b : List Eff}
    (ha : traceOk restored a = true) (hb : traceOk restored b = true) :
    traceOk restored (a ++ b) = true := by
  simp only [traceOk, List.all_append, Bool.and_eq_true] at *
  exact ⟨ha, hb⟩

theorem traceOk_mono {r1 r2 : List String} (hsub : ∀ t, t ∈ r1 → t ∈ r2) :
    ∀ {effs : List Eff}, traceOk r1 effs = true → traceOk r2 effs = true := by
  intro effs h
  simp only [traceOk, List.all_eq_true] at h ⊢
  intro e he
  have h1 := h e he
  cases e with
  | dbUpsert t rows =>
    simp only [decide_eq_true_eq] at h1 ⊢
    exact hsub t h1
  | dbRemove t => exact h1
  | dbDrop t => exact h1
  | dbCreate t => exact h1
  | fileRead n => exact h1
  | fileWrite n => exact h1
  | fileDelete n => exact h1
  | readDir => exact h1

theorem traceOk_extend_upsert {acc : List String × List Eff} (t : String) (rows : List Row)
    (h : traceOk acc.1 acc.2 = true) :
    traceOk (acc.1 ++ [t]) (acc.2 ++ [Eff.dbUpsert t rows]) = true := by
  refine traceOk_append (traceOk_mono (fun x hx => List.mem_append_left _ hx) h) ?_
  simp [traceOk]

theorem traceOk_extend_read {acc : List String × List Eff} (n : String)
    (h : traceOk acc.1 acc.2 = true) :
    traceOk acc.1 (acc.2 ++ [Eff.fileRead n]) = true := by
  refine traceOk_append h ?_
  simp [traceOk]

theorem traceOk_extend_read_upsert {acc : List String × List Eff} (n t : String)
    (rows : List Row) (h : traceOk acc.1 acc.2 = true) :
    traceOk (acc.1 ++ [t]) (acc.2 ++ [Eff.fileRead n, Eff.dbUpsert t rows]) = true := by
  refine traceOk_append (traceOk_mono (fun x hx => List.mem_append_left _ hx) h) ?_
  simp [traceOk]

theorem foldl_traceOk {β : Type} (step : (List String × List Eff) → β → (List String × List Eff))
    (hstep : ∀ acc b, traceOk acc.1 acc.2 = true → traceOk (step acc b).1 (step acc b).2 = true) :
    ∀ (l : List β) (acc : List String × List Eff), traceOk acc.1 acc.2 = true →
      traceOk (l.foldl step acc).1 (l.foldl step acc).2 = true := by
  intro l
  induction l with
  | nil => intro acc h; exact h
  | cons b bs ih => intro acc h; exact ih _ (hstep acc b h)

theorem restoreBackup_traceOk (dir : List FileEntry) (singleFile : Bool)
    (backup : BackupEntry) (tableNames : Option (List String)) :
    traceOk (restoreBackup dir singleFile backup tableNames).1
      (restoreBackup dir singleFile backup tableNames).2 = true := by
  unfold restoreBackup
  split
  · -- single-file mode
    split
    · decide
    · rename_i fe _
      split
      · rename_i allData _
        split
        · rename_i t ts
          refine foldl_traceOk _ ?_ (t :: ts) _ (by simp [traceOk])
          intro acc b h
          dsimp only
          cases hg : objGet allData b with
          | none => exact h
          | some data =>
            dsimp only
            split
            · exact traceOk_extend_upsert b data h
            · exact h
        · refine foldl_traceOk _ ?_ allData _ (by simp [traceOk])
          intro acc b h
          dsimp only
          split
          · exact traceOk_extend_upsert b.1 b.2 h
          · exact h
      · simp [traceOk]
  · -- multi-file mode
    split
    · rename_i t ts
      refine foldl_traceOk _ ?_ (t :: ts) _ (by simp [traceOk])
      intro acc b h
      dsimp only
      cases hf : findFile dir (multiBackupFileName backup.timestamp b) with
      | none => exact h
      | some fe =>
        dsimp only
        split
        · rename_i data _
          split
          · exact traceOk_extend_read_upsert fe.name b data h
          · exact traceOk_extend_read fe.name h
        · exact traceOk_extend_read fe.name h
    · refine foldl_traceOk _ ?_ _ _ (by simp [traceOk])
      intro acc b h
      dsimp only
      cases hm : matchMultiBackup b with
      | none => exact h
      | some p =>
        dsimp only
        cases hf : findFile dir b with
        | none => exact h
        | some fe =>
          dsimp only
          split
          · rename_i data _
            split
            · exact traceOk_extend_read_upsert b p.2 data h
            · exact traceOk_extend_read b h
          · exact traceOk_extend_read b h

theorem applyEffs_frame (keyOf : Row → Field) (restored : List String) :
    ∀ (effs : List Eff) (st : String → List Row), traceOk restored effs = true →
      ∀ t, t ∉ restored → applyEffs keyOf st effs t = st t := by
  intro effs
  induction effs with
  | nil => intro st _ t _; rfl
  | cons e es ih =>
    intro st h t ht
    rw [traceOk, List.all_cons, Bool.and_eq_true] at h
    obtain ⟨he, hes⟩ := h
    show applyEffs keyOf (applyEff keyOf st e) es t = st t
    rw [ih (applyEff keyOf st e) hes t ht]
    cases e with
    | dbUpsert t1 rows =>
      have ht1 : t1 ∈ restored := of_decide_eq_true he
      have hne : t ≠ t1 := fun hh => ht (hh ▸ ht1)
      simp [applyEff, hne]
    | dbRemove t1 => exact absurd he (by simp)
    | dbDrop t1 => exact absurd he (by simp)
    | dbCreate t1 => exact absurd he (by simp)
    | fileRead n => rfl
    | fileWrite n => exact absurd he (by simp)
    | fileDelete n => exact absurd he (by simp)
    | readDir => rfl

theorem upsertRows_keys (keyOf : Row → Field) (old new : List Row) :
    ∀ r ∈ old, ∃ r1 ∈ upsertRows keyOf old new, keyOf r1 = keyOf r := by
  intro r hr
  unfold upsertRows
  cases hf : new.find? (fun n => decide (keyOf n = keyOf r)) with
  | none =>
    refine ⟨r, List.mem_append_left _ ?_, rfl⟩
    refine List.mem_map.mpr ⟨r, hr, ?_⟩
    dsimp only
    rw [hf]
  | some n =>
    have h1 := List.mem_of_find?_eq_some hf
    have h2b := List.find?_some hf
    have h2 : keyOf n = keyOf r := of_decide_eq_true h2b
    refine ⟨n, List.mem_append_left _ ?_, h2⟩
    refine List.mem_map.mpr ⟨r, hr, ?_⟩
    dsimp only
    rw [hf]

theorem applyEffs_keys (keyOf : Row → Field) (restored : List String) :
    ∀ (effs : List Eff) (st : String → List Row), traceOk restored effs = true →
      ∀ t r, r ∈ st t → ∃ r1 ∈ applyEffs keyOf st effs t, keyOf r1 = keyOf r := by
  intro effs
  induction effs with
  | nil => intro st _ t r hr; exact ⟨r, hr, rfl⟩
  | cons e es ih =>
    intro st h t r hr
    rw [traceOk, List.all_cons, Bool.and_eq_true] at h
    obtain ⟨he, hes⟩ := h
    have hstep : ∃ r1 ∈ applyEff keyOf st e t, keyOf r1 = keyOf r := by
      cases e with
      | dbUpsert t1 rows =>
        by_cases hteq : t = t1
        · subst hteq
          simp only [applyEff, if_pos rfl]
          exact upsertRows_keys keyOf (st t) rows r hr
        · simp only [applyEff, if_neg hteq]
          exact ⟨r, hr, rfl⟩
      | dbRemove t1 => exact absurd he (by simp)
      | dbDrop t1 => exact absurd he (by simp)
      | dbCreate t1 => exact absurd he (by simp)
      | fileRead n => exact ⟨r, hr, rfl⟩
      | fileWrite n => exact absurd he (by simp)
      | fileDelete n => exact absurd he (by simp)
      | readDir => exact ⟨r, hr, rfl⟩
    obtain ⟨r1, hr1, hk1⟩ := hstep
    obtain ⟨r2, hr2, hk2⟩ := ih (applyEff keyOf st e) hes t r1 hr1
    exact ⟨r2, hr2, hk2.trans hk1⟩

/-- C10: every restore execution — either mode, with or without a table
subset — issues datastore writes exclusively through `upsert` into the
tables it reports restored (no `remove`, `drop` or `create` ever appears in
the effect trace, nor any file write or delete); consequently every
datastore table not reported restored is left completely unchanged, and in
every table each pre-existing row's key is still present afterwards (upsert
replaces or inserts, never deletes). -/
theorem c10_restore_only_upserts (dir : List FileEntry) (singleFile : Bool)
    (backup : BackupEntry) (tableNames : Option (List String))
    (keyOf : Row → Field) (st : String → List Row) :
    traceOk (restoreBackup dir singleFile backup tableNames).1
      (restoreBackup dir singleFile backup tableNames).2 = true ∧
    (∀ t, t ∉ (restoreBackup dir singleFile backup tableNames).1 →
      applyEffs keyOf st (restoreBackup dir singleFile backup tableNames).2 t = st t) ∧
    (∀ t r, r ∈ st t →
      ∃ r1 ∈ applyEffs keyOf st (restoreBackup dir singleFile backup tableNames).2 t,
        keyOf r1 = keyOf r) := by
  have hok := restoreBackup_traceOk dir singleFile backup tableNames
  exact ⟨hok,
    fun t ht => applyEffs_frame keyOf _ _ st hok t ht,
    fun t r hr => applyEffs_keys keyOf _ _ st hok t r hr⟩

theorem c10_restore_only_upserts_witness :
    applyEffs keyOfExample stExample
      (restoreBackup multiDirExample false
        ⟨"20250102", some ["030405_a", "030405_b", "030405_c"]⟩ none).2 "a" =
      stExample "a" :=
  (c10_restore_only_upserts multiDirExample false
      ⟨"20250102", some ["030405_a", "030405_b", "030405_c"]⟩ none
      keyOfExample stExample).2.1 "a" (by decide)

/-! ### Order lemmas for the descending filename sort (C7) -/

theorem charListLt_irrefl : ∀ l : List Char, charListLt l l = false := by
  intro l
  induction l with
  | nil => rfl
  | cons c cs ih =>
    simp only [charListLt]
    rw [if_neg (lt_irrefl c), if_neg (lt_irrefl c)]
    exact ih

theorem charListLt_asymm : ∀ a b : List Char, charListLt a b = true → charListLt b a = false := by
  intro a
  induction a with
  | nil =>
    intro b h
    cases b with
    | nil => simp [charListLt] at h
    | cons d ds => rfl
  | cons c cs ih =>
    intro b h
    cases b with
    | nil => simp [charListLt] at h
    | cons d ds =>
      simp only [charListLt] at h ⊢
      rcases lt_trichotomy c d with h1 | h1 | h1
      · rw [if_neg (lt_asymm h1), if_pos h1]
      · subst h1
        rw [if_neg (lt_irrefl c), if_neg (lt_irrefl c)] at h ⊢
        exact ih ds h
      · rw [if_neg (lt_asymm h1), if_pos h1] at h
        exact absurd h (by simp)

theorem charListLt_connex : ∀ a b : List Char, a ≠ b →
    charListLt a b = true ∨ charListLt b a = true := by
  intro a
  induction a with
  | nil =>
    intro b hne
    cases b with
    | nil => exact absurd rfl hne
    | cons d ds => exact Or.inl rfl
  | cons c cs ih =>
    intro b hne
    cases b with
    | nil => exact Or.inr rfl
    | cons d ds =>
      rcases lt_trichotomy c d with h1 | h1 | h1
      · left
        simp only [charListLt]
        rw [if_pos h1]
      · subst h1
        have hne2 : cs ≠ ds := fun hh => hne (by rw [hh])
        rcases ih ds hne2 with h | h
        · left
          simp only [charListLt]
          rw [if_neg (lt_irrefl c), if_neg (lt_irrefl c)]
          exact h
        · right
          simp only [charListLt]
          rw [if_neg (lt_irrefl c), if_neg (lt_irrefl c)]
          exact h
      · right
        simp only [charListLt]
        rw [if_pos h1]

theorem charListLt_trans : ∀ a b c : List Char,
    charListLt a b = true → charListLt b c = true → charListLt a c = true := by
  intro a
  induction a with
  | nil =>
    intro b c hab hbc
    cases c with
    | nil =>
      cases b with
      | nil => simp [charListLt] at hab
      | cons y ys => simp [charListLt] at hbc
    | cons z zs => rfl
  | cons x xs ih =>
    intro b c hab hbc
    cases b with
    | nil => simp [charListLt] at hab
    | cons y ys =>
      cases c with
      | nil => simp [charListLt] at hbc
      | cons z zs =>
        simp only [charListLt] at hab hbc ⊢
        rcases lt_trichotomy x y with h1 | h1 | h1
        · rcases lt_trichotomy y z with h2 | h2 | h2
          · rw [if_pos (lt_trans h1 h2)]
          · subst h2
            rw [if_pos h1]
          · rw [if_neg (lt_asymm h2), if_pos h2] at hbc
            exact absurd hbc (by simp)
        · subst h1
          rw [if_neg (lt_irrefl x), if_neg (lt_irrefl x)] at hab
          rcases lt_trichotomy x z with h2 | h2 | h2
          · rw [if_pos h2]
          · subst h2
            rw [if_neg (lt_irrefl x), if_neg (lt_irrefl x)] at hbc ⊢
            exact ih ys zs hab hbc
          · rw [if_neg (lt_asymm h2), if_pos h2] at hbc
            exact absurd hbc (by simp)
        · rw [if_neg (lt_asymm h1), if_pos h1] at hab
          exact absurd hab (by simp)

theorem strLt_irrefl (a : String) : strLt a a = false := charListLt_irrefl a.data

theorem strLt_asymm {a b : String} (h : strLt a b = true) : strLt b a = false :=
  charListLt_asymm a.data b.data h

theorem strLt_connex {a b : String} (h : a ≠ b) : strLt a b = true ∨ strLt b a = true :=
  charListLt_connex a.data b.data
    (fun hd => h (by cases a; cases b; exact congrArg String.mk (by simpa using hd)))

theorem strLt_not_lt {a b : String} (hab : strLt a b = false) :
    a = b ∨ strLt b a = true := by
  by_cases h : a = b
  · exact Or.inl h
  · rcases strLt_connex h with h1 | h1
    · rw [hab] at h1
      exact absurd h1 (by simp)
    · exact Or.inr h1

theorem strLt_ge_trans {a b c : String} (hab : strLt a b = false) (hbc : strLt b c = false) :
    strLt a c = false := by
  rcases strLt_not_lt hab with rfl | h1
  · exact hbc
  · rcases strLt_not_lt hbc with rfl | h2
    · exact hab
    · exact charListLt_asymm c.data a.data (charListLt_trans c.data b.data a.data h2 h1)

theorem perm_insertDescBy {α : Type} (key : α → String) (x : α) :
    ∀ l : List α, List.Perm (insertDescBy key x l) (x :: l) := by
  intro l
  induction l with
  | nil => exact List.Perm.refl _
  | cons y ys ih =>
    rw [insertDescBy]
    split
    · exact (ih.cons y).trans (List.Perm.swap x y ys)
    · exact List.Perm.refl _

theorem perm_sortDescBy {α : Type} (key : α → String) :
    ∀ l : List α, List.Perm (sortDescBy key l) l := by
  intro l
  induction l with
  | nil => exact List.Perm.refl _
  | cons x xs ih =>
    rw [sortDescBy]
    exact (perm_insertDescBy key x (sortDescBy key xs)).trans (ih.cons x)

theorem pairwise_insertDescBy {α : Type} (key : α → String) (x : α) :
    ∀ l : List α, l.Pairwise (fun a b => strLt (key a) (key b) = false) →
      (insertDescBy key x l).Pairwise (fun a b => strLt (key a) (key b) = false) := by
  intro l
  induction l with
  | nil => intro _; exact List.pairwise_singleton _ _
  | cons y ys ih =>
    intro hp
    rw [List.pairwise_cons] at hp
    obtain ⟨hy, hys⟩ := hp
    rw [insertDescBy]
    split
    · rename_i hxy
      rw [List.pairwise_cons]
      refine ⟨?_, ih hys⟩
      intro z hz
      rcases List.mem_cons.mp ((perm_insertDescBy key x ys).subset hz) with rfl | hz2
      · exact strLt_asymm hxy
      · exact hy z hz2
    · rename_i hxy
      have hxy2 : strLt (key x) (key y) = false := by
        revert hxy
        cases strLt (key x) (key y) <;> simp
      rw [List.pairwise_cons]
      constructor
      · intro z hz
        rcases List.mem_cons.mp hz with rfl | hz2
        · exact hxy2
        · exact strLt_ge_trans hxy2 (hy z hz2)
      · rw [List.pairwise_cons]
        exact ⟨hy, hys⟩

theorem pairwise_sortDescBy {α : Type} (key : α → String) :
    ∀ l : List α, (sortDescBy key l).Pairwise (fun a b => strLt (key a) (key b) = false) := by
  intro l
  induction l with
  | nil => exact List.Pairwise.nil
  | cons x xs ih =>
    rw [sortDescBy]
    exact pairwise_insertDescBy key x (sortDescBy key xs) ih

theorem mem_take_sorted :
    ∀ s : List String, s.Pairwise (fun a b => strLt a b = false) → s.Nodup →
      ∀ (N : Nat) (f : String),
        f ∈ s.take N ↔ f ∈ s ∧ s.countP (fun g => strLt f g) < N := by
  intro s
  induction s with
  | nil => intro _ _ N f; simp
  | cons x rest ih =>
    intro hp hnd N f
    rw [List.pairwise_cons] at hp
    obtain ⟨hx, hrest⟩ := hp
    rw [List.nodup_cons] at hnd
    obtain ⟨hxn, hndr⟩ := hnd
    cases N with
    | zero => simp
    | succ N =>
      rw [List.take_succ_cons]
      by_cases hf : f = x
      · subst hf
        have h0 : rest.countP (fun g => strLt f g) = 0 := by
          rw [List.countP_eq_zero]
          intro g hg
          simp [hx g hg]
        constructor
        · intro _
          refine ⟨List.mem_cons_self _ _, ?_⟩
          rw [List.countP_cons, h0]
          simp [strLt_irrefl]
        · intro _
          exact List.mem_cons_self _ _
      · have hfx : f ∈ rest → strLt f x = true := by
          intro hfr
          rcases strLt_connex hf with h | h
          · exact h
          · rw [hx f hfr] at h
            exact absurd h (by simp)
        constructor
        · intro hmem
          rcases List.mem_cons.mp hmem with rfl | hmem2
          · exact absurd rfl hf
          · obtain ⟨hfr, hcount⟩ := (ih hrest hndr N f).mp hmem2
            refine ⟨List.mem_cons_of_mem _ hfr, ?_⟩
            rw [List.countP_cons]
            simp only [hfx hfr, if_true]
            omega
        · rintro ⟨hmem, hcount⟩
          rcases List.mem_cons.mp hmem with rfl | hmem2
          · exact absurd rfl hf
          · apply List.mem_cons_of_mem
            apply (ih hrest hndr N f).mpr
            refine ⟨hmem2, ?_⟩
            rw [List.countP_cons] at hcount
            simp only [hfx hmem2, if_true] at hcount
            omega

/-- C7: with a positive keep count over a directory of distinct
`backup_`-prefixed files, cleanup leaves exactly `min keep count` files,
and a file survives exactly when fewer than `keep` files of the directory
are lexicographically greater — the remaining artifacts are exactly the
`keep` most recent. -/
theorem c7_retention_invariant (files : List String) (keep : Nat) (hk : 0 < keep)
    (hnd : files.Nodup) (hall : ∀ f ∈ files, startsWithBackup f = true) :
    ((cleanupOldBackups files keep).2).length = min keep files.length ∧
    (∀ f, f ∈ (cleanupOldBackups files keep).2 ↔
      f ∈ files ∧ files.countP (fun g => strLt f g) < keep) := by
  have hkeep : ¬ keep = 0 := by omega
  unfold cleanupOldBackups
  rw [if_neg hkeep]
  have hfe : files.filter startsWithBackup = files :=
    List.filter_eq_self.mpr hall
  rw [hfe]
  have hperm : List.Perm (sortDescBy (fun f => f) files) files := perm_sortDescBy _ files
  have hpair : (sortDescBy (fun f => f) files).Pairwise (fun a b => strLt a b = false) :=
    pairwise_sortDescBy (fun f => f) files
  have hnds : (sortDescBy (fun f => f) files).Nodup := hperm.nodup_iff.mpr hnd
  have hsplit := List.take_append_drop keep (sortDescBy (fun f => f) files)
  have hdisj : ∀ f, f ∈ (sortDescBy (fun f => f) files).take keep →
      f ∈ (sortDescBy (fun f => f) files).drop keep → False := by
    intro f h1 h2
    exact List.disjoint_take_drop hnds (le_refl keep) h1 h2
  have hmemiff : ∀ f, f ∈ files ∧ f ∉ (sortDescBy (fun f => f) files).drop keep ↔
      f ∈ (sortDescBy (fun f => f) files).take keep := by
    intro f
    constructor
    · rintro ⟨h1, h2⟩
      have hs : f ∈ (sortDescBy (fun f => f) files) := hperm.mem_iff.mpr h1
      rw [← hsplit] at hs
      rcases List.mem_append.mp hs with h | h
      · exact h
      · exact absurd h h2
    · intro h
      have hs : f ∈ (sortDescBy (fun f => f) files) := by
        rw [← hsplit]
        exact List.mem_append_left _ h
      exact ⟨hperm.mem_iff.mp hs, fun h2 => hdisj f h h2⟩
  constructor
  · -- length
    rw [← List.countP_eq_length_filter]
    rw [← hperm.countP_eq]
    have hco : (sortDescBy (fun f => f) files).countP
          (fun f => decide (f ∉ (sortDescBy (fun f => f) files).drop keep)) =
        ((sortDescBy (fun f => f) files).take keep ++
            (sortDescBy (fun f => f) files).drop keep).countP
          (fun f => decide (f ∉ (sortDescBy (fun f => f) files).drop keep)) := by
      rw [hsplit]
    rw [hco, List.countP_append]
    have htake : ((sortDescBy (fun f => f) files).take keep).countP
          (fun f => decide (f ∉ (sortDescBy (fun f => f) files).drop keep)) =
        ((sortDescBy (fun f => f) files).take keep).length := by
      rw [List.countP_eq_length]
      intro a ha
      simp only [decide_eq_true_eq]
      exact fun h2 => hdisj a ha h2
    have hdropc : ((sortDescBy (fun f => f) files).drop keep).countP
          (fun f => decide (f ∉ (sortDescBy (fun f => f) files).drop keep)) = 0 := by
      rw [List.countP_eq_zero]
      intro a ha
      simp [ha]
    rw [htake, hdropc, List.length_take, hperm.length_eq]
    omega
  · intro f
    rw [List.mem_filter]
    simp only [decide_eq_true_eq]
    rw [hmemiff f]
    rw [mem_take_sorted _ hpair hnds keep f]
    rw [hperm.countP_eq, List.Perm.mem_iff hperm]

theorem c7_retention_invariant_witness :
    ((cleanupOldBackups
        ["backup_20250101.json", "backup_20250103.json", "backup_20250102.json"] 2).2).length =
      min 2 (["backup_20250101.json", "backup_20250103.json", "backup_20250102.json"] :
        List String).length ∧
    ("backup_20250101.json" ∈ (cleanupOldBackups
        ["backup_20250101.json", "backup_20250103.json", "backup_20250102.json"] 2).2 ↔
      "backup_20250101.json" ∈
          ["backup_20250101.json", "backup_20250103.json", "backup_20250102.json"] ∧
        (["backup_20250101.json", "backup_20250103.json",
            "backup_20250102.json"].countP (fun g => strLt "backup_20250101.json" g)) < 2) :=
  ⟨(c7_retention_invariant
      ["backup_20250101.json", "backup_20250103.json", "backup_20250102.json"] 2
      (by decide) (by decide) (by decide)).1,
   (c7_retention_invariant
      ["backup_20250101.json", "backup_20250103.json", "backup_20250102.json"] 2
      (by decide) (by decide) (by decide)).2 "backup_20250101.json"⟩

end DevTool
